import Mathlib

/-!
Verification development for `tools/build_eq_items.py` (Tibia-EQ catalog
builder).  The Python source is embedded shallowly: page text is a
`List Char`, the concrete regular expressions of the script are compiled by
hand into executable matchers with the backtracking behaviour of Python's
`re` engine on these particular patterns, and the batch loop of `main` is a
fold over the processed window.  ASCII models are used for `str.lower`,
`\w`, `\d` and `\s` (the wiki data the script handles is ASCII).
-/

/-! ## Characters: word characters, whitespace, digits (ASCII model of `re`) -/

/-- `\w` of Python `re`: alphanumeric or underscore (ASCII model). -/
def isWordChar (c : Char) : Bool := c.isAlphanum || c == '_'

/-- Python whitespace (`\s`, also the default of `str.strip`), ASCII model. -/
def isWs (c : Char) : Bool :=
  c == ' ' || c == '\t' || c == '\n' || c == '\x0d' || c == '\x0b' || c == '\x0c'

/-- Is the character at index `j` a word character (out of range: no)? -/
def wordAt (cs : List Char) (j : Nat) : Bool := isWordChar (cs.getD j ' ')

/-- `\b` of Python `re` at offset `j` (between `cs[j-1]` and `cs[j]`). -/
def boundaryAt (cs : List Char) (j : Nat) : Bool :=
  (if j = 0 then false else wordAt cs (j - 1)) != wordAt cs j

/-- Case-insensitive literal match of `pat` at offset `i` of `cs`
(model of a literal regex fragment under `re.IGNORECASE`). -/
def litCI (pat cs : List Char) (i : Nat) : Bool :=
  let seg := (cs.drop i).take pat.length
  seg.length == pat.length && (seg.zip pat).all fun p => p.1.toLower == p.2.toLower

/-- `bool(re.search(alt1|alt2|..., text, re.I))` where every alternative is a
literal wrapped in `\b ... \b`: some alternative matches at some offset. -/
def reWordSearch (alts : List (List Char)) (cs : List Char) : Bool :=
  (List.range (cs.length + 1)).any fun i =>
    alts.any fun pat => boundaryAt cs i && litCI pat cs i && boundaryAt cs (i + pat.length)

/-! ## The guards of the script (`looks_like_creature`, `looks_like_item`)

`re.search(r"\bHitpoints\b|\bExperience Points\b|\bBestiary\b|\bCreature\b", text, re.I)`
and
`re.search(r"\bImbuements?\b|\bIt weighs\b|\bYou see\b|\bArm:\b|\bProtection\b", text, re.I)`.
`\bImbuements?\b` is expanded into its two words, which is equivalent. -/

def looks_like_creature (cs : List Char) : Bool :=
  reWordSearch ["hitpoints".data, "experience points".data, "bestiary".data, "creature".data] cs

def looks_like_item (cs : List Char) : Bool :=
  reWordSearch
    ["imbuement".data, "imbuements".data, "it weighs".data, "you see".data,
     "arm:".data, "protection".data] cs

/-! ## PROT_RE: `(?:protection\s+)?(physical|fire|ice|energy|earth|death|holy)\s*([+-]?\d+)\s*%`

Hand-compiled matcher with the exact backtracking behaviour of the Python
engine on this pattern: the optional `protection` prefix is tried first and
given up if the tail fails; alternatives of the element group are tried in
order, each with the full continuation; the starred/plus pieces are
deterministic maximal munch here because no maximal run can be shortened in
a way that lets the next piece match. -/

def ELEMENTS : List String := ["physical", "fire", "ice", "energy", "earth", "death", "holy"]

/-- Length of the whitespace run starting at offset `i`. -/
def wsLen (cs : List Char) (i : Nat) : Nat := ((cs.drop i).takeWhile isWs).length

/-- Length of the digit run starting at offset `i` (`\d`, ASCII model). -/
def digitsLen (cs : List Char) (i : Nat) : Nat := ((cs.drop i).takeWhile Char.isDigit).length

/-- Numeric value of the `len` digits starting at offset `i`. -/
def natOfDigits (cs : List Char) (i len : Nat) : Nat :=
  ((cs.drop i).take len).foldl (fun a c => a * 10 + (c.toNat - 48)) 0

/-- `\s*([+-]?\d+)\s*%` at offset `i`: returns the signed value of group 2
and the end offset of the whole match. -/
def matchNumAt (cs : List Char) (i : Nat) : Option (Int × Nat) :=
  let j := i + wsLen cs i
  let c := cs.getD j '0'
  let sk := if c == '+' || c == '-' then j + 1 else j
  let dl := digitsLen cs sk
  if dl = 0 then none
  else
    let v : Int := if c == '-' then -(natOfDigits cs sk dl : Int) else (natOfDigits cs sk dl : Int)
    let m := sk + dl + wsLen cs (sk + dl)
    if m < cs.length && cs.getD m ' ' == '%' then some (v, m + 1) else none

/-- The element alternation with its continuation: try each alternative in
order; an alternative succeeds only if the rest of the pattern also matches. -/
def tryElems (cs : List Char) (i : Nat) : List String → Option (String × Int × Nat)
  | [] => none
  | e :: rest =>
    if litCI e.data cs i then
      match matchNumAt cs (i + e.data.length) with
      | some (v, fin) => some (e, v, fin)
      | none => tryElems cs i rest
    else tryElems cs i rest

/-- The attempt that consumes the greedy optional `protection\s+` first:
the literal `protection` followed by at least one whitespace character,
then the element/number tail. -/
def protPref (cs : List Char) (i : Nat) : Option (String × Int × Nat) :=
  if litCI "protection".data cs i then
    let w := wsLen cs (i + 10)
    if 0 < w then tryElems cs (i + 10 + w) ELEMENTS else none
  else none

/-- One attempt of `PROT_RE` anchored at offset `i`: first with the greedy
optional `protection\s+` prefix, then (on failure) without it. -/
def matchProtAt (cs : List Char) (i : Nat) : Option (String × Int × Nat) :=
  match protPref cs i with
  | some r => some r
  | none => tryElems cs i ELEMENTS

/-- `re.finditer(PROT_RE, text)`: scan offsets left to right, resuming after
the end of each (non-empty) match.  The fuel argument bounds the number of
iterations; `cs.length + 1` is always enough since every step advances. -/
def protScanGo (cs : List Char) : Nat → Nat → List (String × Int)
  | 0, _ => []
  | fuel + 1, i =>
    if cs.length < i then []
    else
      match matchProtAt cs i with
      | some (e, v, fin) => (e, v) :: protScanGo cs fuel (max fin (i + 1))
      | none => protScanGo cs fuel (i + 1)

/-- The full left-to-right match list of `PROT_RE` over the text, in order.
Group 1 is one of the element words matched case-insensitively, so the
`.lower()` of the script is already the canonical element name. -/
def protScan (cs : List Char) : List (String × Int) := protScanGo cs (cs.length + 1) 0

/-- Python `res[el] = val` on a dict modelled as an association list:
update in place if the key is present, else append. -/
def setKey : List (String × Int) → String → Int → List (String × Int)
  | [], k, v => [(k, v)]
  | (k', v') :: rest, k, v =>
    if k' == k then (k', v) :: rest else (k', v') :: setKey rest k v

/-- The resistance dict built by the loop
`for m in PROT_RE.finditer(text): ... if el in ELEMENTS: res[el] = val`. -/
def resOf (cs : List Char) : List (String × Int) :=
  (protScan cs).foldl (fun r p => if p.1 ∈ ELEMENTS then setKey r p.1 p.2 else r) []

/-! ## Substring search, `str.lower`, `str.count` -/

/-- Python `str.lower`, ASCII model. -/
def pyLower (cs : List Char) : List Char := cs.map Char.toLower

/-- Exact prefix test of `pat` against `cs`. -/
def startsWith : List Char → List Char → Bool
  | [], _ => true
  | _ :: _, [] => false
  | p :: ps, c :: cst => p == c && startsWith ps cst

/-- Python `pat in cs` (exact substring test). -/
def containsSub (pat : List Char) : List Char → Bool
  | [] => startsWith pat []
  | c :: rest => startsWith pat (c :: rest) || containsSub pat rest

/-- Python `cs.count(pat)` for non-empty `pat`: non-overlapping occurrences,
scanning left to right (fuel-bounded recursion; `cs.length + 1` suffices). -/
def countSubGo (pat : List Char) : Nat → List Char → Nat
  | 0, _ => 0
  | _ + 1, [] => 0
  | fuel + 1, c :: rest =>
    if startsWith pat (c :: rest) then 1 + countSubGo pat fuel ((c :: rest).drop pat.length)
    else countSubGo pat fuel rest

def countSub (pat cs : List Char) : Nat := countSubGo pat (cs.length + 1) cs

/-- `text.lower().count("empty slot")` of the script. -/
def imbueSlotsOf (cs : List Char) : Nat := countSub "empty slot".data (pyLower cs)

/-! ## Level: `re.search(r"of level\s+(\d+)\s+or higher", text, re.I)` -/

/-- One attempt of the level pattern anchored at offset `i`. -/
def matchLevelAt (cs : List Char) (i : Nat) : Option Nat :=
  if litCI "of level".data cs i then
    let j := i + 8
    let w := wsLen cs j
    if w = 0 then none
    else
      let k := j + w
      let dl := digitsLen cs k
      if dl = 0 then none
      else
        let w2 := wsLen cs (k + dl)
        if w2 = 0 then none
        else if litCI "or higher".data cs (k + dl + w2) then some (natOfDigits cs k dl)
        else none
  else none

/-- `re.search`: the leftmost match wins; `None` when nothing matches. -/
def levelOf (cs : List Char) : Option Nat :=
  (List.range (cs.length + 1)).findSome? (matchLevelAt cs)

/-! ## Vocations -/

def PHRASE : List Char := "only be wielded properly by".data

/-- The five membership tests of the script over the lowered text, appending
the tags in the fixed order knight, paladin, druid, sorcerer, monk. -/
def vocScan (low : List Char) : List String :=
  (if containsSub "knight".data low then ["KNIGHT"] else [])
    ++ (if containsSub "paladin".data low then ["PALADIN"] else [])
    ++ (if containsSub "druid".data low then ["DRUID"] else [])
    ++ (if containsSub "sorcerer".data low then ["SORCERER"] else [])
    ++ (if containsSub "monk".data low then ["MONK"] else [])

/-- The vocation block of `parse_item`: the membership tests run over the
whole lowered text `low`, not over a suffix of it. -/
def vocOf (cs : List Char) : List String :=
  let low := pyLower cs
  if containsSub PHRASE low then
    let v := vocScan low
    if v = [] then ["ANY"] else v
  else ["ANY"]

/-! ## `parse_item` (pure part, after the page text has been fetched) -/

structure Meta where
  res : List (String × Int)
  imbueSlots : Nat
  level : Option Nat
  voc : List String
  deriving DecidableEq

/-- The body of `parse_item` on the rendered page text: `None` when the
creature guard fires or the item guard does not, otherwise the extracted
attribute record. -/
def parseItemText (text : List Char) : Option Meta :=
  if looks_like_creature text || !looks_like_item text then none
  else
    some { res := resOf text, imbueSlots := imbueSlotsOf text,
           level := levelOf text, voc := vocOf text }

/-- `parse_item` with the network fetch as an oracle: any fetch/transport
exception surfaces as `Except.error`. -/
def parse_item (fetch : List Char → Except Unit (List Char)) (title : List Char) :
    Except Unit (Option Meta) :=
  (fetch title).map parseItemText

/-! ## `urllib.parse.quote` and `str.strip` -/

/-- Upper-case hexadecimal digit, as `urllib` prints escapes. -/
def hexDigit (n : Nat) : Char :=
  match n with
  | 0 => '0' | 1 => '1' | 2 => '2' | 3 => '3' | 4 => '4' | 5 => '5' | 6 => '6' | 7 => '7'
  | 8 => '8' | 9 => '9' | 10 => 'A' | 11 => 'B' | 12 => 'C' | 13 => 'D' | 14 => 'E' | _ => 'F'

/-- Characters `urllib.parse.quote` leaves as-is with the default
`safe='/'`: ASCII letters, digits, `_.-~` and `/`. -/
def quoteSafe (c : Char) : Bool :=
  c.isAlpha || c.isDigit || c == '_' || c == '.' || c == '-' || c == '~' || c == '/'

/-- UTF-8 bytes of one character. -/
def utf8Bytes (c : Char) : List Nat :=
  let n := c.toNat
  if n < 128 then [n]
  else if n < 2048 then [192 + n / 64, 128 + n % 64]
  else if n < 65536 then [224 + n / 4096, 128 + (n / 64) % 64, 128 + n % 64]
  else [240 + n / 262144, 128 + (n / 4096) % 64, 128 + (n / 64) % 64, 128 + n % 64]

/-- `%XX` escapes for a byte list. -/
def percentEnc : List Nat → List Char
  | [] => []
  | b :: bs => '%' :: hexDigit (b / 16) :: hexDigit (b % 16) :: percentEnc bs

/-- `urllib.parse.quote(t)` with the default `safe='/'`. -/
def pyQuote : List Char → List Char
  | [] => []
  | c :: rest => (if quoteSafe c then [c] else percentEnc (utf8Bytes c)) ++ pyQuote rest

/-- Python `str.strip()` (whitespace from both ends). -/
def pyStrip (cs : List Char) : List Char :=
  ((cs.dropWhile isWs).reverse.dropWhile isWs).reverse

/-! ## Catalog entries and the crawl state of `main` -/

/-- `BASE = "https://tibia.fandom.com"`. -/
def BASE : List Char := "https://tibia.fandom.com".data

/-- `src = f"{BASE}/wiki/{quote(t)}"`, the dedup key of a title. -/
def srcOf (t : List Char) : List Char := BASE ++ "/wiki/".data ++ pyQuote t

/-- One record of `data/eq_titles.json`: a page title and its slot hint
(`None` for titles discovered from a `_set` seed). -/
structure TitleRec where
  title : List Char
  slot : Option String
  deriving DecidableEq

/-- `titles[i].get("slot") or "unknown"` (`None` and `""` are falsy). -/
def slotOf (r : TitleRec) : String :=
  match r.slot with
  | none => "unknown"
  | some s => if s = "" then "unknown" else s

/-- One record of `data/eq_items.json`. -/
structure Entry where
  name : List Char
  slot : String
  level : Option Nat
  voc : List String
  res : List (String × Int)
  imbueSlots : Nat
  source : List Char
  deriving DecidableEq

/-- The dict appended by `main` for an accepted title. -/
def mkEntry (r : TitleRec) (meta : Meta) : Entry :=
  { name := r.title.map (fun c => if c == '_' then ' ' else c),
    slot := slotOf r, level := meta.level, voc := meta.voc,
    res := meta.res, imbueSlots := meta.imbueSlots, source := srcOf r.title }

/-- `(it.get("source") or it.get("name") or "").strip()`: the key an existing
catalog entry contributes to the dedup set. -/
def entryKey (e : Entry) : List Char :=
  pyStrip (if e.source = [] then (if e.name = [] then [] else e.name) else e.source)

/-- `data/eq_state.json`.  The run-statistic fields are optional because a
state file written by an older run may lack them; `main` overwrites them all. -/
structure CrawlState where
  index : Nat
  batchSize : Nat
  createdAt : Nat
  lastRun : Option Nat
  lastAdded : Option Nat
  lastProcessed : Option Nat
  lastSkippedNonItem : Option Nat
  totalTitles : Option Nat
  totalItems : Option Nat
  deriving DecidableEq

/-- The mutable state of the batch loop: the catalog list, the dedup set
(modelled as the list of its insertions), the three run counters, and the
intermediate value of `state["index"]` (written only on fetch failure and
overwritten after the loop). -/
structure RunAcc where
  items : List Entry
  existing : List (List Char)
  processed : Nat
  added : Nat
  skippedNonItem : Nat
  idx : Nat
  deriving DecidableEq

/-- One iteration of the `for i in range(start, end)` loop of `main`, on the
pair (loop index, title record). -/
def stepTitle (fetch : List Char → Except Unit (List Char)) (acc : RunAcc)
    (p : Nat × TitleRec) : RunAcc :=
  match parse_item fetch p.2.title with
  | .error _ => { acc with idx := p.1 + 1 }
  | .ok meta? =>
    let acc1 := { acc with processed := acc.processed + 1 }
    match meta? with
    | none => { acc1 with skippedNonItem := acc1.skippedNonItem + 1 }
    | some meta =>
      if meta.res = [] then acc1
      else
        let src := srcOf p.2.title
        if src ∈ acc1.existing then acc1
        else
          { acc1 with items := acc1.items ++ [mkEntry p.2 meta],
                      existing := src :: acc1.existing, added := acc1.added + 1 }

/-- The whole loop over one window. -/
def processWindow (fetch : List Char → Except Unit (List Char))
    (w : List (Nat × TitleRec)) (acc : RunAcc) : RunAcc :=
  w.foldl (stepTitle fetch) acc

/-- `titles[start:end]` with `start = state.index`,
`end = min(len(titles), start + batchSize)`. -/
def windowOf (titles : List TitleRec) (st : CrawlState) : List TitleRec :=
  (titles.drop st.index).take (min titles.length (st.index + st.batchSize) - st.index)

/-- The window paired with the loop indices `start, start+1, ...`. -/
def wPairs (titles : List TitleRec) (st : CrawlState) : List (Nat × TitleRec) :=
  (List.range' st.index (min titles.length (st.index + st.batchSize) - st.index)).zip
    (windowOf titles st)

/-- The loop state at the top of `main`'s loop: the loaded catalog, the
`existing` set built from it, zeroed counters. -/
def initAcc (st : CrawlState) (items : List Entry) : RunAcc :=
  { items := items, existing := items.map entryKey,
    processed := 0, added := 0, skippedNonItem := 0, idx := st.index }

/-- One invocation of `main` after the titles, state and items files have
been loaded: process the current window, then persist the advanced cursor,
the refreshed `lastRun` and the run statistics together with the catalog. -/
def runBatch (fetch : List Char → Except Unit (List Char)) (titles : List TitleRec)
    (st : CrawlState) (items : List Entry) (now : Nat) : CrawlState × List Entry :=
  let acc := processWindow fetch (wPairs titles st) (initAcc st items)
  ({ st with index := min titles.length (st.index + st.batchSize),
             lastRun := some now,
             lastAdded := some acc.added,
             lastProcessed := some acc.processed,
             lastSkippedNonItem := some acc.skippedNonItem,
             totalTitles := some titles.length,
             totalItems := some acc.items.length },
   acc.items)

/-- A sequence of independent invocations over the same (immutable) title
list; each invocation has its own fetch oracle and timestamp. -/
def runSeq (titles : List TitleRec) :
    List ((List Char → Except Unit (List Char)) × Nat) →
    CrawlState × List Entry → CrawlState × List Entry
  | [], p => p
  | r :: rest, p => runSeq titles rest (runBatch r.1 titles p.1 p.2 r.2)

/-- Does the per-title body reach the append site for this title?  (Fetch
succeeds, the page classifies as an item, and the resistances are
non-empty.) -/
def addable (fetch : List Char → Except Unit (List Char)) (r : TitleRec) : Bool :=
  match parse_item fetch r.title with
  | .error _ => false
  | .ok none => false
  | .ok (some meta) => if meta.res = [] then false else true

/-! ## Lemmas: stripping the source URL is the identity -/

theorem dropWhile_eq_self_of (p : Char → Bool) (l : List Char)
    (h : ∀ c ∈ l, p c = false) : l.dropWhile p = l := by
  cases l with
  | nil => rfl
  | cons a t =>
    rw [List.dropWhile_cons, h a (by simp)]
    simp

theorem pyStrip_eq_self (cs : List Char) (h : ∀ c ∈ cs, isWs c = false) :
    pyStrip cs = cs := by
  unfold pyStrip
  rw [dropWhile_eq_self_of _ _ h,
      dropWhile_eq_self_of _ _ (fun c hc => h c (List.mem_reverse.mp hc)),
      List.reverse_reverse]

theorem hexDigit_not_ws (n : Nat) : isWs (hexDigit n) = false := by
  unfold hexDigit
  split <;> rfl

theorem ws_not_safe (c : Char) (h : isWs c = true) : quoteSafe c = false := by
  simp only [isWs, Bool.or_eq_true, beq_iff_eq] at h
  rcases h with ((((rfl | rfl) | rfl) | rfl) | rfl) | rfl <;> rfl

theorem safe_not_ws (c : Char) (h : quoteSafe c = true) : isWs c = false := by
  cases hw : isWs c with
  | false => rfl
  | true => rw [ws_not_safe c hw] at h; exact absurd h (by simp)

theorem percentEnc_not_ws (bs : List Nat) : ∀ c ∈ percentEnc bs, isWs c = false := by
  induction bs with
  | nil => intro c hc; simp [percentEnc] at hc
  | cons b t ih =>
    intro c hc
    simp only [percentEnc, List.mem_cons] at hc
    rcases hc with rfl | rfl | rfl | hc
    · rfl
    · exact hexDigit_not_ws _
    · exact hexDigit_not_ws _
    · exact ih c hc

theorem pyQuote_not_ws (cs : List Char) : ∀ c ∈ pyQuote cs, isWs c = false := by
  induction cs with
  | nil => intro c hc; simp [pyQuote] at hc
  | cons a t ih =>
    intro c hc
    simp only [pyQuote, List.mem_append] at hc
    rcases hc with hc | hc
    · by_cases hs : quoteSafe a
      · rw [if_pos hs] at hc
        simp only [List.mem_singleton] at hc
        rw [hc]
        exact safe_not_ws a hs
      · rw [if_neg hs] at hc
        exact percentEnc_not_ws _ c hc
    · exact ih c hc

theorem srcOf_not_ws (t : List Char) : ∀ c ∈ srcOf t, isWs c = false := by
  have h1 : ∀ c ∈ BASE ++ "/wiki/".data, isWs c = false := by decide
  intro c hc
  unfold srcOf at hc
  rw [List.append_assoc] at hc
  rcases List.mem_append.mp hc with hc | hc
  · exact h1 c (List.mem_append.mpr (Or.inl hc))
  · rcases List.mem_append.mp hc with hc | hc
    · exact h1 c (List.mem_append.mpr (Or.inr hc))
    · exact pyQuote_not_ws t c hc

theorem srcOf_ne_nil (t : List Char) : srcOf t ≠ [] := by
  have hB : BASE = 'h' :: "ttps://tibia.fandom.com".data := by decide
  unfold srcOf
  rw [hB]
  simp

theorem entryKey_mkEntry (r : TitleRec) (meta : Meta) :
    entryKey (mkEntry r meta) = srcOf r.title := by
  unfold entryKey mkEntry
  simp only [if_neg (srcOf_ne_nil r.title)]
  exact pyStrip_eq_self _ (srcOf_not_ws r.title)

/-! ## Lemmas: the five outcomes of one loop iteration -/

theorem stepTitle_err (fetch : List Char → Except Unit (List Char)) (acc : RunAcc)
    (i : Nat) (t : TitleRec) (h : fetch t.title = .error ()) :
    stepTitle fetch acc (i, t) = { acc with idx := i + 1 } := by
  simp [stepTitle, parse_item, h, Except.map]

theorem stepTitle_ok_none (fetch : List Char → Except Unit (List Char)) (acc : RunAcc)
    (i : Nat) (t : TitleRec) (text : List Char)
    (h : fetch t.title = .ok text) (hn : parseItemText text = none) :
    stepTitle fetch acc (i, t)
      = { acc with processed := acc.processed + 1,
                   skippedNonItem := acc.skippedNonItem + 1 } := by
  simp [stepTitle, parse_item, h, Except.map, hn]

theorem stepTitle_ok_empty (fetch : List Char → Except Unit (List Char)) (acc : RunAcc)
    (i : Nat) (t : TitleRec) (text : List Char) (meta : Meta)
    (h : fetch t.title = .ok text) (hm : parseItemText text = some meta)
    (hr : meta.res = []) :
    stepTitle fetch acc (i, t) = { acc with processed := acc.processed + 1 } := by
  simp [stepTitle, parse_item, h, Except.map, hm, hr]

theorem stepTitle_ok_dup (fetch : List Char → Except Unit (List Char)) (acc : RunAcc)
    (i : Nat) (t : TitleRec) (text : List Char) (meta : Meta)
    (h : fetch t.title = .ok text) (hm : parseItemText text = some meta)
    (hr : meta.res ≠ []) (hd : srcOf t.title ∈ acc.existing) :
    stepTitle fetch acc (i, t) = { acc with processed := acc.processed + 1 } := by
  simp [stepTitle, parse_item, h, Except.map, hm, hr, hd]

theorem stepTitle_ok_add (fetch : List Char → Except Unit (List Char)) (acc : RunAcc)
    (i : Nat) (t : TitleRec) (text : List Char) (meta : Meta)
    (h : fetch t.title = .ok text) (hm : parseItemText text = some meta)
    (hr : meta.res ≠ []) (hd : srcOf t.title ∉ acc.existing) :
    stepTitle fetch acc (i, t)
      = { acc with processed := acc.processed + 1,
                   items := acc.items ++ [mkEntry t meta],
                   existing := srcOf t.title :: acc.existing,
                   added := acc.added + 1 } := by
  simp [stepTitle, parse_item, h, Except.map, hm, hr, hd]

/-- The `existing` set after one iteration: unchanged, or the source of this
title pushed on top. -/
theorem stepTitle_existing_cases (fetch : List Char → Except Unit (List Char))
    (acc : RunAcc) (p : Nat × TitleRec) :
    (stepTitle fetch acc p).existing = acc.existing ∨
      (stepTitle fetch acc p).existing = srcOf p.2.title :: acc.existing := by
  unfold stepTitle
  cases parse_item fetch p.2.title with
  | error e => left; rfl
  | ok m =>
    cases m with
    | none => left; rfl
    | some meta =>
      by_cases hr : meta.res = []
      · left; simp [hr]
      · by_cases hd : srcOf p.2.title ∈ acc.existing
        · left; simp [hr, hd]
        · right; simp [hr, hd]

theorem stepTitle_existing_mono (fetch : List Char → Except Unit (List Char))
    (acc : RunAcc) (p : Nat × TitleRec) (s : List Char) (h : s ∈ acc.existing) :
    s ∈ (stepTitle fetch acc p).existing := by
  rcases stepTitle_existing_cases fetch acc p with hc | hc <;> rw [hc]
  · exact h
  · exact List.mem_cons_of_mem _ h

theorem processWindow_existing_mono (fetch : List Char → Except Unit (List Char)) :
    ∀ (w : List (Nat × TitleRec)) (acc : RunAcc) (s : List Char), s ∈ acc.existing →
      s ∈ (processWindow fetch w acc).existing := by
  intro w
  induction w with
  | nil => intro acc s h; exact h
  | cons q rest ih =>
    intro acc s h
    exact ih (stepTitle fetch acc q) s (stepTitle_existing_mono fetch acc q s h)

/-- An addable title always leaves its source key in the `existing` set. -/
theorem stepTitle_covers (fetch : List Char → Except Unit (List Char))
    (acc : RunAcc) (p : Nat × TitleRec) (h : addable fetch p.2 = true) :
    srcOf p.2.title ∈ (stepTitle fetch acc p).existing := by
  unfold addable at h
  unfold stepTitle
  cases hp : parse_item fetch p.2.title with
  | error e => rw [hp] at h; simp at h
  | ok m =>
    rw [hp] at h
    cases m with
    | none => simp at h
    | some meta =>
      have hr : ¬ meta.res = [] := by
        intro hcon
        simp [hcon] at h
      by_cases hd : srcOf p.2.title ∈ acc.existing
      · simp [hr, hd]
      · simp [hr, hd]

theorem processWindow_covers (fetch : List Char → Except Unit (List Char)) :
    ∀ (w : List (Nat × TitleRec)) (acc : RunAcc) (p : Nat × TitleRec), p ∈ w →
      addable fetch p.2 = true →
      srcOf p.2.title ∈ (processWindow fetch w acc).existing := by
  intro w
  induction w with
  | nil => intro acc p hp; exact absurd hp (by simp)
  | cons q rest ih =>
    intro acc p hp ha
    rcases List.mem_cons.mp hp with rfl | hp
    · exact processWindow_existing_mono fetch rest _ _ (stepTitle_covers fetch acc p ha)
    · exact ih (stepTitle fetch acc q) p hp ha

/-- A step whose title is already covered by `existing` (when addable) adds
nothing: catalog, `added` counter and `existing` set are unchanged. -/
theorem stepTitle_no_new (fetch : List Char → Except Unit (List Char))
    (acc : RunAcc) (p : Nat × TitleRec)
    (h : addable fetch p.2 = true → srcOf p.2.title ∈ acc.existing) :
    (stepTitle fetch acc p).items = acc.items ∧
      (stepTitle fetch acc p).added = acc.added ∧
      (stepTitle fetch acc p).existing = acc.existing := by
  unfold addable at h
  unfold stepTitle
  cases hp : parse_item fetch p.2.title with
  | error e => exact ⟨rfl, rfl, rfl⟩
  | ok m =>
    rw [hp] at h
    cases m with
    | none => exact ⟨rfl, rfl, rfl⟩
    | some meta =>
      by_cases hr : meta.res = []
      · simp [hr]
      · have hd : srcOf p.2.title ∈ acc.existing := h (by simp [hr])
        simp [hr, hd]

theorem processWindow_no_new (fetch : List Char → Except Unit (List Char)) :
    ∀ (w : List (Nat × TitleRec)) (acc : RunAcc),
      (∀ p ∈ w, addable fetch p.2 = true → srcOf p.2.title ∈ acc.existing) →
      (processWindow fetch w acc).items = acc.items ∧
        (processWindow fetch w acc).added = acc.added ∧
        (processWindow fetch w acc).existing = acc.existing := by
  intro w
  induction w with
  | nil => intro acc _; exact ⟨rfl, rfl, rfl⟩
  | cons q rest ih =>
    intro acc h
    have hq := stepTitle_no_new fetch acc q (h q (List.mem_cons_self q rest))
    have hrest := ih (stepTitle fetch acc q) (by
      intro p hp ha
      rw [hq.2.2]
      exact h p (List.mem_cons_of_mem q hp) ha)
    refine ⟨hrest.1.trans hq.1, hrest.2.1.trans hq.2.1, hrest.2.2.trans hq.2.2⟩

/-- The loop invariant of `main`: the `existing` set holds exactly the keys
of the catalog entries. -/
theorem stepTitle_inv (fetch : List Char → Except Unit (List Char))
    (acc : RunAcc) (p : Nat × TitleRec)
    (h : ∀ s, s ∈ acc.existing ↔ s ∈ acc.items.map entryKey) :
    ∀ s, s ∈ (stepTitle fetch acc p).existing ↔
      s ∈ (stepTitle fetch acc p).items.map entryKey := by
  unfold stepTitle
  cases parse_item fetch p.2.title with
  | error e => exact h
  | ok m =>
    cases m with
    | none => exact h
    | some meta =>
      by_cases hr : meta.res = []
      · simpa [hr] using h
      · by_cases hd : srcOf p.2.title ∈ acc.existing
        · simpa [hr, hd] using h
        · intro s
          simp only [hr, hd, if_neg, if_false]
          simp only [List.mem_cons, List.map_append, List.mem_append, List.map_cons,
            List.map_nil, List.mem_singleton, entryKey_mkEntry, h s]
          tauto

theorem processWindow_inv (fetch : List Char → Except Unit (List Char)) :
    ∀ (w : List (Nat × TitleRec)) (acc : RunAcc),
      (∀ s, s ∈ acc.existing ↔ s ∈ acc.items.map entryKey) →
      ∀ s, s ∈ (processWindow fetch w acc).existing ↔
        s ∈ (processWindow fetch w acc).items.map entryKey := by
  intro w
  induction w with
  | nil => intro acc h; exact h
  | cons q rest ih => intro acc h; exact ih (stepTitle fetch acc q) (stepTitle_inv fetch acc q h)

/-! ## Lemmas: last-match-wins for the resistance dict -/

/-- The value bound by the last pair of `l` whose key is `el` (the
last-match-wins reading of a left-to-right match list). -/
def lastBind : List (String × Int) → String → Option Int
  | [], _ => none
  | (k, v) :: rest, el =>
    match lastBind rest el with
    | some w => some w
    | none => if k == el then some v else none

/-- Python dict lookup on the association-list model. -/
def getKey : List (String × Int) → String → Option Int
  | [], _ => none
  | (k, v) :: rest, el => if el = k then some v else getKey rest el

theorem getKey_setKey (l : List (String × Int)) (k : String) (v : Int) (el : String) :
    getKey (setKey l k v) el = if el = k then some v else getKey l el := by
  induction l with
  | nil => simp [setKey, getKey]
  | cons q rest ih =>
    obtain ⟨k', v'⟩ := q
    by_cases hk : k' = k
    · subst hk
      by_cases h : el = k' <;> simp [setKey, getKey, h]
    · by_cases h1 : el = k' <;> by_cases h2 : el = k
      · exact absurd (h1.symm.trans h2) hk
      · simp [setKey, getKey, beq_iff_eq, hk, h1, h2]
      · subst h2
        simp [setKey, getKey, beq_iff_eq, hk, h1, ih]
      · simp [setKey, getKey, beq_iff_eq, hk, h1, h2, ih]

theorem getKey_resFold (l : List (String × Int)) (el : String) :
    ∀ acc : List (String × Int), (∀ p ∈ l, p.1 ∈ ELEMENTS) →
      getKey (l.foldl (fun r p => if p.1 ∈ ELEMENTS then setKey r p.1 p.2 else r) acc) el
        = match lastBind l el with
          | some w => some w
          | none => getKey acc el := by
  induction l with
  | nil => intro acc _; rfl
  | cons q rest ih =>
    obtain ⟨k, v⟩ := q
    intro acc h
    have hk : k ∈ ELEMENTS := h (k, v) (List.mem_cons_self _ _)
    rw [List.foldl_cons]
    simp only [if_pos hk]
    rw [ih (setKey acc k v) (fun p hp => h p (List.mem_cons_of_mem _ hp))]
    cases hl : lastBind rest el with
    | some w => simp [lastBind, hl]
    | none =>
      rw [getKey_setKey]
      by_cases he : el = k
      · subst he
        simp [lastBind, hl]
      · have hke : ¬ k = el := fun hc => he hc.symm
        simp [lastBind, hl, he, beq_iff_eq, hke]

theorem tryElems_mem (cs : List Char) (i : Nat) :
    ∀ (alts : List String) (e : String) (v : Int) (f : Nat),
      tryElems cs i alts = some (e, v, f) → e ∈ alts := by
  intro alts
  induction alts with
  | nil => intro e v f h; simp [tryElems] at h
  | cons a rest ih =>
    intro e v f h
    by_cases hl : litCI a.data cs i
    · rw [tryElems, if_pos hl] at h
      cases hm : matchNumAt cs (i + a.data.length) with
      | some r =>
        rw [hm] at h
        obtain ⟨rfl, _⟩ : a = e ∧ (r.1, r.2) = (v, f) := by
          cases r; injection h with h2; injection h2 with h3 h4
          exact ⟨h3, by injection h4 with h5 h6; rw [h5, h6]⟩
        exact List.mem_cons_self _ _
      | none => rw [hm] at h; exact List.mem_cons_of_mem _ (ih e v f h)
    · rw [tryElems, if_neg hl] at h
      exact List.mem_cons_of_mem _ (ih e v f h)

theorem protPref_mem (cs : List Char) (i : Nat) (e : String) (v : Int) (f : Nat)
    (h : protPref cs i = some (e, v, f)) : e ∈ ELEMENTS := by
  unfold protPref at h
  by_cases hl : litCI "protection".data cs i
  · rw [if_pos hl] at h
    by_cases hw : 0 < wsLen cs (i + 10)
    · simp only [if_pos hw] at h
      exact tryElems_mem cs _ ELEMENTS e v f h
    · simp only [if_neg hw] at h
      exact absurd h (by simp)
  · rw [if_neg hl] at h
    exact absurd h (by simp)

theorem matchProtAt_mem (cs : List Char) (i : Nat) (e : String) (v : Int) (f : Nat)
    (h : matchProtAt cs i = some (e, v, f)) : e ∈ ELEMENTS := by
  unfold matchProtAt at h
  cases hp : protPref cs i with
  | some r =>
    rw [hp] at h
    injection h with h2
    rw [h2] at hp
    exact protPref_mem cs i _ _ _ hp
  | none =>
    rw [hp] at h
    exact tryElems_mem cs i ELEMENTS e v f h

theorem protScanGo_mem (cs : List Char) :
    ∀ (fuel i : Nat) (p : String × Int), p ∈ protScanGo cs fuel i → p.1 ∈ ELEMENTS := by
  intro fuel
  induction fuel with
  | zero => intro i p h; simp [protScanGo] at h
  | succ n ih =>
    intro i p h
    rw [protScanGo] at h
    by_cases hl : cs.length < i
    · rw [if_pos hl] at h; simp at h
    · rw [if_neg hl] at h
      cases hm : matchProtAt cs i with
      | some r =>
        obtain ⟨e, v, f⟩ := r
        rw [hm] at h
        rcases List.mem_cons.mp h with rfl | h
        · exact matchProtAt_mem cs i e v f hm
        · exact ih _ p h
      | none => rw [hm] at h; exact ih _ p h

theorem protScan_mem (cs : List Char) (p : String × Int) (h : p ∈ protScan cs) :
    p.1 ∈ ELEMENTS := protScanGo_mem cs _ 0 p h

/-- The resistance dict in terms of the match list: a key is bound exactly
to the value of the last match for it. -/
theorem getKey_resOf (cs : List Char) (el : String) :
    getKey (resOf cs) el = lastBind (protScan cs) el := by
  unfold resOf
  rw [getKey_resFold (protScan cs) el [] (fun p hp => protScan_mem cs p hp)]
  cases lastBind (protScan cs) el <;> rfl

/-- A bound key always names one of the seven elements. -/
theorem lastBind_key_mem (el : String) :
    ∀ l : List (String × Int), ∀ v : Int, lastBind l el = some v → ∃ p ∈ l, p.1 = el := by
  intro l
  induction l with
  | nil => intro v h; simp [lastBind] at h
  | cons q rest ih =>
    obtain ⟨k, w⟩ := q
    intro v h
    rw [lastBind] at h
    cases hl : lastBind rest el with
    | some u =>
      obtain ⟨p, hp, hpe⟩ := ih u hl
      exact ⟨p, List.mem_cons_of_mem _ hp, hpe⟩
    | none =>
      rw [hl] at h
      by_cases hke : k == el
      · exact ⟨(k, w), List.mem_cons_self _ _, by simpa [beq_iff_eq] using hke⟩
      · rw [if_neg (by simpa using hke)] at h
        exact absurd h (by simp)

/-! ## The claims -/

/-- C1: a page classifies as `Item` iff the creature guard is false and the
item guard is true; in particular any text with both a creature marker and
an item marker is `NonItem`, i.e. `parse_item` returns `None` on it. -/
theorem classify_item_iff (text : List Char) :
    ((parseItemText text).isSome = (!looks_like_creature text && looks_like_item text))
    ∧ (looks_like_creature text = true → looks_like_item text = true →
        parseItemText text = none) := by
  constructor
  · unfold parseItemText
    cases hc : looks_like_creature text <;> cases hi : looks_like_item text <;> simp
  · intro hc _
    unfold parseItemText
    rw [hc]
    simp

/-- Witness for C1: a concrete text carrying both a creature marker
(`Creature`) and an item marker (`Protection`) classifies as non-item. -/
theorem classify_item_iff_witness :
    looks_like_creature "Creature Protection 5%".data = true
    ∧ looks_like_item "Creature Protection 5%".data = true
    ∧ parseItemText "Creature Protection 5%".data = none :=
  ⟨by decide, by decide,
    (classify_item_iff "Creature Protection 5%".data).2 (by decide) (by decide)⟩

/-- C2: the extracted resistance mapping binds an element exactly when the
left-to-right match list of `PROT_RE` over the text mentions it, and then
to the signed value of the last such match; every bound key is one of the
seven fixed elements; and on a text of the shape
"protection fire 5% ... fire -3%" the binding for fire is -3. -/
theorem resistances_last_match (text : List Char) (el : String) :
    (getKey (resOf text) el = lastBind (protScan text) el)
    ∧ (∀ v : Int, getKey (resOf text) el = some v → el ∈ ELEMENTS)
    ∧ getKey (resOf "protection fire 5% some words fire -3%".data) "fire" = some (-3) := by
  refine ⟨getKey_resOf text el, ?_, by decide⟩
  intro v hv
  rw [getKey_resOf] at hv
  obtain ⟨p, hp, hpe⟩ := lastBind_key_mem el (protScan text) v hv
  rw [← hpe]
  exact protScan_mem text p hp

/-- Witness for C2: on the concrete two-match text the last match wins and
the bound key is one of the seven elements. -/
theorem resistances_last_match_witness :
    getKey (resOf "protection fire 5% some words fire -3%".data) "fire" = some (-3)
    ∧ "fire" ∈ ELEMENTS :=
  ⟨by decide,
    (resistances_last_match "protection fire 5% some words fire -3%".data "fire").2.1
      (-3) (by decide)⟩

theorem runBatch_index (fetch : List Char → Except Unit (List Char))
    (titles : List TitleRec) (st : CrawlState) (items : List Entry) (now : Nat) :
    (runBatch fetch titles st items now).1.index
      = min titles.length (st.index + st.batchSize) := rfl

theorem windowOf_length (titles : List TitleRec) (st : CrawlState)
    (h1 : st.index ≤ titles.length) :
    (windowOf titles st).length
      = min titles.length (st.index + st.batchSize) - st.index := by
  unfold windowOf
  rw [List.length_take, List.length_drop]
  omega

theorem runSeq_mono (titles : List TitleRec) :
    ∀ (runs : List ((List Char → Except Unit (List Char)) × Nat))
      (p : CrawlState × List Entry), p.1.index ≤ titles.length →
      p.1.index ≤ (runSeq titles runs p).1.index
      ∧ (runSeq titles runs p).1.index ≤ titles.length := by
  intro runs
  induction runs with
  | nil => intro p h; exact ⟨le_refl _, h⟩
  | cons r rest ih =>
    intro p h
    rw [runSeq]
    have hidx : (runBatch r.1 titles p.1 p.2 r.2).1.index
        = min titles.length (p.1.index + p.1.batchSize) := rfl
    have h1 : (runBatch r.1 titles p.1 p.2 r.2).1.index ≤ titles.length := by
      rw [hidx]; omega
    obtain ⟨ha, hb⟩ := ih (runBatch r.1 titles p.1 p.2 r.2) h1
    refine ⟨le_trans ?_ ha, hb⟩
    rw [hidx]
    omega

/-- C3: starting from a cursor within bounds and a positive batch size, one
invocation persists exactly `cursor + |window|` as the new cursor, and over
any sequence of invocations the cursor is non-decreasing and bounded by the
number of titles. -/
theorem cursor_advances_by_window (fetch : List Char → Except Unit (List Char))
    (titles : List TitleRec) (st : CrawlState) (items : List Entry) (now : Nat)
    (h1 : st.index ≤ titles.length) (h2 : 0 < st.batchSize) :
    ((runBatch fetch titles st items now).1.index
        = st.index + (windowOf titles st).length)
    ∧ (∀ runs : List ((List Char → Except Unit (List Char)) × Nat),
        st.index ≤ (runSeq titles runs (st, items)).1.index
        ∧ (runSeq titles runs (st, items)).1.index ≤ titles.length) := by
  constructor
  · rw [runBatch_index, windowOf_length titles st h1]
    omega
  · intro runs
    exact runSeq_mono titles runs (st, items) h1

def exTitles : List TitleRec := [⟨"A".data, none⟩]

def exStateC3 : CrawlState := ⟨0, 60, 0, none, none, none, none, none, none⟩

def exFetchErr : List Char → Except Unit (List Char) := fun _ => .error ()

/-- Witness for C3 at a one-title list with cursor 0 and batch size 60. -/
theorem cursor_advances_by_window_witness :
    (runBatch exFetchErr exTitles exStateC3 [] 0).1.index
      = exStateC3.index + (windowOf exTitles exStateC3).length :=
  (cursor_advances_by_window exFetchErr exTitles exStateC3 [] 0 (by decide) (by decide)).1

/-- C10: with a loaded cursor strictly beyond the title list the invocation
processes no title (empty window), leaves the catalog unchanged, and
persists a cursor clamped down to the list length — so the cursor decreases
in this out-of-bounds case. -/
theorem cursor_overrun_clamps (fetch : List Char → Except Unit (List Char))
    (titles : List TitleRec) (st : CrawlState) (items : List Entry) (now : Nat)
    (h : titles.length < st.index) :
    windowOf titles st = []
    ∧ (runBatch fetch titles st items now).2 = items
    ∧ (runBatch fetch titles st items now).1.index = titles.length
    ∧ (runBatch fetch titles st items now).1.index < st.index := by
  have hz : min titles.length (st.index + st.batchSize) - st.index = 0 := by omega
  have hw : windowOf titles st = [] := by
    unfold windowOf
    rw [hz, List.take_zero]
  have hwp : wPairs titles st = [] := by
    unfold wPairs
    rw [hw, List.zip_nil_right]
  refine ⟨hw, ?_, ?_, ?_⟩
  · show (processWindow fetch (wPairs titles st) (initAcc st items)).items = items
    rw [hwp]
    rfl
  · show min titles.length (st.index + st.batchSize) = titles.length
    omega
  · show min titles.length (st.index + st.batchSize) < st.index
    omega

def exStateOverrun : CrawlState := ⟨5, 60, 0, none, none, none, none, none, none⟩

/-- Witness for C10: cursor 5 over an empty title list clamps to 0. -/
theorem cursor_overrun_clamps_witness :
    (runBatch exFetchErr [] exStateOverrun [] 0).2 = ([] : List Entry)
    ∧ (runBatch exFetchErr [] exStateOverrun [] 0).1.index = 0 :=
  ⟨(cursor_overrun_clamps exFetchErr [] exStateOverrun [] 0 (by decide)).2.1,
   (cursor_overrun_clamps exFetchErr [] exStateOverrun [] 0 (by decide)).2.2.1⟩

/-- C5: a title whose fetch (or parse) raises is skipped silently — the only
effect of its iteration is the dead `state["index"]` write, so `processed`,
`added`, `skippedNonItem` and the catalog are untouched and the loop goes
on — and the batch still persists the cursor just past the whole window, so
the title is never retried. -/
theorem fetch_error_silent_skip (fetch : List Char → Except Unit (List Char))
    (titles : List TitleRec) (st : CrawlState) (items : List Entry) (now : Nat)
    (acc : RunAcc) (i : Nat) (t : TitleRec)
    (herr : fetch t.title = .error ()) :
    (stepTitle fetch acc (i, t) = { acc with idx := i + 1 })
    ∧ (runBatch fetch titles st items now).1.index
        = min titles.length (st.index + st.batchSize) :=
  ⟨stepTitle_err fetch acc i t herr, rfl⟩

/-- Witness for C5 at an always-failing fetch oracle. -/
theorem fetch_error_silent_skip_witness :
    stepTitle exFetchErr (initAcc exStateC3 []) (0, ⟨"A".data, none⟩)
      = { initAcc exStateC3 [] with idx := 1 } :=
  (fetch_error_silent_skip exFetchErr exTitles exStateC3 [] 0
    (initAcc exStateC3 []) 0 ⟨"A".data, none⟩ rfl).1

/-- C9: a successfully fetched page classified `Item` whose extracted
resistance mapping is empty bumps `processed` by exactly one, leaves
`added` unchanged and leaves the catalog unchanged (in particular no entry
for the title is added). -/
theorem empty_res_not_added (fetch : List Char → Except Unit (List Char))
    (acc : RunAcc) (i : Nat) (t : TitleRec) (text : List Char) (meta : Meta)
    (hok : fetch t.title = .ok text) (hm : parseItemText text = some meta)
    (hr : meta.res = []) :
    stepTitle fetch acc (i, t) = { acc with processed := acc.processed + 1 }
    ∧ (stepTitle fetch acc (i, t)).items = acc.items
    ∧ (stepTitle fetch acc (i, t)).added = acc.added := by
  have h := stepTitle_ok_empty fetch acc i t text meta hok hm hr
  exact ⟨h, by rw [h], by rw [h]⟩

def exFetchC9 : List Char → Except Unit (List Char) :=
  fun _ => .ok "You see a magic hat. It weighs 10.00 oz.".data

/-- Witness for C9 at an item page without any resistance statement. -/
theorem empty_res_not_added_witness :
    stepTitle exFetchC9 ⟨[], [], 0, 0, 0, 0⟩ (0, ⟨"Magic_Hat".data, none⟩)
      = { (⟨[], [], 0, 0, 0, 0⟩ : RunAcc) with processed := 1 } :=
  (empty_res_not_added exFetchC9 ⟨[], [], 0, 0, 0, 0⟩ 0 ⟨"Magic_Hat".data, none⟩
    "You see a magic hat. It weighs 10.00 oz.".data
    { res := [], imbueSlots := 0, level := none, voc := ["ANY"] }
    rfl (by decide) rfl).1

def exFetchC7 : List Char → Except Unit (List Char) := fun _ => .ok "Creature".data

/-- Counterexample to C7 as stated: a successfully fetched page classified
`NonItem` also increments `processed`, because the script bumps `processed`
before the `None` check; the claim asserts `processed` stays unchanged. -/
theorem nonitem_processed_cex :
    parseItemText "Creature".data = none
    ∧ (stepTitle exFetchC7 ⟨[], [], 0, 0, 0, 0⟩ (0, ⟨"Rat".data, none⟩)).skippedNonItem = 1
    ∧ (stepTitle exFetchC7 ⟨[], [], 0, 0, 0, 0⟩ (0, ⟨"Rat".data, none⟩)).processed = 1
    ∧ (stepTitle exFetchC7 ⟨[], [], 0, 0, 0, 0⟩ (0, ⟨"Rat".data, none⟩)).processed
        ≠ (⟨[], [], 0, 0, 0, 0⟩ : RunAcc).processed := by
  refine ⟨by decide, by decide, by decide, by decide⟩

/-- C7 (amended): a successfully fetched page classified `NonItem`
increments `skippedNonItem` by exactly one and also `processed` by exactly
one (the script counts every successfully fetched title as processed),
continues to the next title, and changes neither `added` nor the catalog. -/
theorem nonitem_counts (fetch : List Char → Except Unit (List Char))
    (acc : RunAcc) (i : Nat) (t : TitleRec) (text : List Char)
    (hok : fetch t.title = .ok text) (hn : parseItemText text = none) :
    stepTitle fetch acc (i, t)
      = { acc with processed := acc.processed + 1,
                   skippedNonItem := acc.skippedNonItem + 1 } :=
  stepTitle_ok_none fetch acc i t text hok hn

/-- Witness for the amended C7 at a creature page. -/
theorem nonitem_counts_witness :
    stepTitle exFetchC7 ⟨[], [], 0, 0, 0, 0⟩ (0, ⟨"Rat".data, none⟩)
      = { (⟨[], [], 0, 0, 0, 0⟩ : RunAcc) with processed := 1, skippedNonItem := 1 } :=
  nonitem_counts exFetchC7 ⟨[], [], 0, 0, 0, 0⟩ 0 ⟨"Rat".data, none⟩
    "Creature".data rfl (by decide)

def exStateDone : CrawlState := ⟨0, 60, 0, none, some 5, some 7, some 3, some 0, some 0⟩

/-- Counterexample to C8 as stated: a completed crawl (cursor equal to the
title count) with persisted `lastAdded = 5` gets `lastAdded = 0` from a
no-op invocation, so the statistics fields do not keep their previous
values. -/
theorem noop_overwrites_stats_cex :
    exStateDone.index = ([] : List TitleRec).length
    ∧ exStateDone.lastAdded = some 5
    ∧ (runBatch exFetchErr [] exStateDone [] 9).1.lastAdded = some 0
    ∧ (runBatch exFetchErr [] exStateDone [] 9).1.lastAdded ≠ exStateDone.lastAdded := by
  refine ⟨by decide, by decide, by decide, by decide⟩

/-- C8 (amended): when the cursor already equals the title count the
invocation fetches nothing (the window is empty), keeps the catalog and the
cursor, refreshes `lastRun`, and overwrites the statistics fields with the
values of this empty run: zero counters and the current totals. -/
theorem complete_run_noop (fetch : List Char → Except Unit (List Char))
    (titles : List TitleRec) (st : CrawlState) (items : List Entry) (now : Nat)
    (h : st.index = titles.length) :
    windowOf titles st = []
    ∧ runBatch fetch titles st items now
      = ({ st with
            index := st.index, lastRun := some now, lastAdded := some 0,
            lastProcessed := some 0, lastSkippedNonItem := some 0,
            totalTitles := some titles.length, totalItems := some items.length }, items) := by
  have hmin : min titles.length (st.index + st.batchSize) = st.index := by omega
  have hz : min titles.length (st.index + st.batchSize) - st.index = 0 := by omega
  have hw : windowOf titles st = [] := by
    unfold windowOf
    rw [hz, List.take_zero]
  have hwp : wPairs titles st = [] := by
    unfold wPairs
    rw [hw, List.zip_nil_right]
  refine ⟨hw, ?_⟩
  unfold runBatch
  rw [hwp]
  unfold processWindow
  rw [List.foldl_nil, hmin]
  rfl

def exStateDone1 : CrawlState := ⟨1, 60, 0, none, none, none, none, none, none⟩

/-- Witness for the amended C8 at a one-title list with cursor 1. -/
theorem complete_run_noop_witness :
    runBatch exFetchErr exTitles exStateDone1 [] 9
      = ({ exStateDone1 with
            lastRun := some 9, lastAdded := some 0,
            lastProcessed := some 0, lastSkippedNonItem := some 0,
            totalTitles := some 1, totalItems := some 0 }, ([] : List Entry)) :=
  (complete_run_noop exFetchErr exTitles exStateDone1 [] 9 (by decide)).2

def VOC_NAMES : List (List Char × String) :=
  [("knight".data, "KNIGHT"), ("paladin".data, "PALADIN"), ("druid".data, "DRUID"),
   ("sorcerer".data, "SORCERER"), ("monk".data, "MONK")]

/-- First offset at which `pat` occurs in `cs`, if any. -/
def firstIndexOfSub (pat cs : List Char) : Option Nat :=
  (List.range (cs.length + 1)).find? fun i => startsWith pat (cs.drop i)

/-- Spec-side definition, written from the spec's words for comparison with
`vocOf`: the five vocation names are searched only in the remainder of the
text after the restriction phrase. -/
def vocOfSpec (cs : List Char) : List String :=
  let low := pyLower cs
  match firstIndexOfSub PHRASE low with
  | none => ["ANY"]
  | some i =>
    let v := vocScan (low.drop (i + PHRASE.length))
    if v = [] then ["ANY"] else v

/-- Counterexample to C6 as stated: with the restriction phrase present, the
script scans the whole lowered text, so a vocation named only before the
phrase is still included, while the claimed remainder-of-text scan excludes
it. -/
theorem voc_remainder_cex :
    vocOf "A knight cannot use this. It can only be wielded properly by druids.".data
      = ["KNIGHT", "DRUID"]
    ∧ vocOfSpec "A knight cannot use this. It can only be wielded properly by druids.".data
      = ["DRUID"]
    ∧ vocOf "A knight cannot use this. It can only be wielded properly by druids.".data
      ≠ vocOfSpec "A knight cannot use this. It can only be wielded properly by druids.".data := by
  refine ⟨by decide, by decide, by decide⟩

/-- C6 (amended): without the restriction phrase the vocations are exactly
`["ANY"]` regardless of vocation-name occurrences elsewhere; with the
phrase present, a vocation tag is included iff its name occurs
case-insensitively anywhere in the whole text (not only after the phrase),
falling back to `["ANY"]` when none of the five names occurs at all. -/
theorem voc_whole_text_scan (text : List Char) :
    (containsSub PHRASE (pyLower text) = false → vocOf text = ["ANY"])
    ∧ (containsSub PHRASE (pyLower text) = true →
        ∀ p ∈ VOC_NAMES, ((vocOf text).contains p.2 = containsSub p.1 (pyLower text)))
    ∧ (containsSub PHRASE (pyLower text) = true →
        (∀ p ∈ VOC_NAMES, containsSub p.1 (pyLower text) = false) → vocOf text = ["ANY"]) := by
  refine ⟨?_, ?_, ?_⟩
  · intro h
    simp [vocOf, h]
  · intro hp p hmem
    simp only [VOC_NAMES, List.mem_cons, List.not_mem_nil, or_false] at hmem
    rcases hmem with rfl | rfl | rfl | rfl | rfl <;>
      (cases h1 : containsSub "knight".data (pyLower text) <;>
       cases h2 : containsSub "paladin".data (pyLower text) <;>
       cases h3 : containsSub "druid".data (pyLower text) <;>
       cases h4 : containsSub "sorcerer".data (pyLower text) <;>
       cases h5 : containsSub "monk".data (pyLower text) <;>
       simp only [vocOf, vocScan, hp, h1, h2, h3, h4, h5] <;> decide)
  · intro hp hall
    have h1 := hall ("knight".data, "KNIGHT") (by simp [VOC_NAMES])
    have h2 := hall ("paladin".data, "PALADIN") (by simp [VOC_NAMES])
    have h3 := hall ("druid".data, "DRUID") (by simp [VOC_NAMES])
    have h4 := hall ("sorcerer".data, "SORCERER") (by simp [VOC_NAMES])
    have h5 := hall ("monk".data, "MONK") (by simp [VOC_NAMES])
    simp only [vocOf, vocScan, hp, h1, h2, h3, h4, h5]
    decide

/-- Witness for the amended C6: the counterexample text contains the phrase
and mentions knight and druid somewhere, and both tags are extracted. -/
theorem voc_whole_text_scan_witness :
    (vocOf "A knight cannot use this. It can only be wielded properly by druids.".data).contains
        "KNIGHT"
      = containsSub "knight".data
          (pyLower "A knight cannot use this. It can only be wielded properly by druids.".data) :=
  (voc_whole_text_scan
      "A knight cannot use this. It can only be wielded properly by druids.".data).2.1
    (by decide) ("knight".data, "KNIGHT") (by simp [VOC_NAMES])

/-- C4: running the batch step a second time over the same window (same
title list, same cursor, same fetched texts), starting from the catalog the
first run produced, yields the very same catalog — no entry is duplicated,
since every append is guarded by membership of the entry's source key — and
the second run's `added` counter (persisted as `lastAdded`) is zero. -/
theorem rerun_idempotent (fetch : List Char → Except Unit (List Char))
    (titles : List TitleRec) (st : CrawlState) (items : List Entry) (now now' : Nat) :
    (runBatch fetch titles st (runBatch fetch titles st items now).2 now').2
      = (runBatch fetch titles st items now).2
    ∧ (runBatch fetch titles st (runBatch fetch titles st items now).2 now').1.lastAdded
      = some 0 := by
  have hitems1 : (runBatch fetch titles st items now).2
      = (processWindow fetch (wPairs titles st) (initAcc st items)).items := rfl
  have hinv : ∀ s, s ∈ (processWindow fetch (wPairs titles st) (initAcc st items)).existing ↔
      s ∈ (processWindow fetch (wPairs titles st) (initAcc st items)).items.map entryKey :=
    processWindow_inv fetch (wPairs titles st) (initAcc st items) (fun _ => Iff.rfl)
  have hcov : ∀ p ∈ wPairs titles st, addable fetch p.2 = true →
      srcOf p.2.title ∈ (initAcc st
        (processWindow fetch (wPairs titles st) (initAcc st items)).items).existing := by
    intro p hp ha
    exact (hinv _).mp (processWindow_covers fetch (wPairs titles st) (initAcc st items) p hp ha)
  have hno := processWindow_no_new fetch (wPairs titles st)
    (initAcc st (processWindow fetch (wPairs titles st) (initAcc st items)).items) hcov
  constructor
  · rw [hitems1]
    exact hno.1
  · rw [hitems1]
    show some (processWindow fetch (wPairs titles st)
      (initAcc st (processWindow fetch (wPairs titles st) (initAcc st items)).items)).added
      = some 0
    rw [hno.2.1]
    rfl
